import Mathlib

/-!
A shallow embedding of `scripts/update-books.mjs`: the TRC table parser,
schema (ISBN / pubdate column) inference, record extraction, openBD record
construction, cover-fallback filling, the persisted-state loader and the
"rocket pencil" merge, together with the persistence control flow of `main`.

External effects (HTTP fetches, the zip archive, the image probes, the
clock) are passed in as explicit inputs; machine strings are Lean `String`s.
`String.prototype.normalize("NFKC")` is modelled as the identity map: it is
the identity on the ASCII data exercised here and no theorem below depends
on width folding.
-/

namespace UpdateBooks

/-- JS whitespace test used by `String.prototype.trim`, restricted to the
ASCII whitespace characters (space, tab, LF, CR, VT, FF).  Unicode spaces
are not modelled; no input below contains them. -/
def wsChar (c : Char) : Bool :=
  c == ' ' || c == '\t' || c == '\n' || c == '\r' || c == '\x0b' || c == '\x0c'

/-- `trim`: drop leading and trailing whitespace characters. -/
def trimChars (cs : List Char) : List Char :=
  ((cs.dropWhile wsChar).reverse.dropWhile wsChar).reverse

/-- `String.prototype.normalize("NFKC")`, modelled as the identity map
(see the header comment). -/
def nfkc (s : String) : String := s

/-- `normStr(s)`: `String(s ?? "").normalize("NFKC").trim()`. -/
def normStr (s : String) : String :=
  String.mk (trimChars (nfkc s).toList)

/-- Characters kept by `normIsbn`'s `replace(/[^0-9Xx]/g,"")`. -/
def isbnChar (c : Char) : Bool :=
  c.isDigit || c == 'X' || c == 'x'

/-- `normIsbn(s)`: normalize, strip everything but `[0-9Xx]`, uppercase. -/
def normIsbn (s : String) : String :=
  String.mk (((normStr s).toList.filter isbnChar).map Char.toUpper)

/-- The test `/^97[89]\d{10}$/.test(s)` applied to `s` as-is (no
re-normalization): 13 ASCII digits beginning `978` or `979`. -/
def isbn13Spec (s : String) : Bool :=
  let cs := s.toList
  cs.length == 13 && cs.all Char.isDigit &&
    (match cs with
     | '9' :: '7' :: c :: _ => c == '8' || c == '9'
     | _ => false)

/-- `isIsbn13Like(s)`: the pattern test after `normIsbn`. -/
def isIsbn13Like (s : String) : Bool :=
  isbn13Spec (normIsbn s)

/-- Leftmost 13-character window matching `/97[89]\d{10}/`. -/
def findIsbn13 : List Char → Option (List Char)
  | [] => none
  | c :: rest =>
    let win := (c :: rest).take 13
    if isbn13Spec (String.mk win) then some win
    else findIsbn13 rest

/-- `extractIsbnFromTextLine(line)`: the first `/97[89]\d{10}/` match in
`normStr(line)`, or `""` when there is none. -/
def extractIsbnFromTextLine (line : String) : String :=
  match findIsbn13 (normStr line).toList with
  | some w => String.mk w
  | none => ""

/-- `encodeURIComponent`, modelled as the identity: every string that
reaches it here is built from `[0-9X-]` and ASCII letters, on which the JS
function is the identity. -/
def encodeURIComponent (s : String) : String := s

def AMAZON_TAG : String := "mozublo-22"

/-- `amazonUrlFromIsbn(isbn)`. -/
def amazonUrlFromIsbn (isbn : String) : String :=
  "https://www.amazon.co.jp/s?k=" ++ encodeURIComponent isbn ++
    "&tag=" ++ encodeURIComponent AMAZON_TAG

/-- `hay.includes(needle)` (JS substring containment). -/
def strContains (hay needle : String) : Bool :=
  let h := hay.toList
  let n := needle.toList
  (List.range (h.length + 1)).any (fun i => n.isPrefixOf (h.drop i))

/-- Occurrences of a single character in a string (the length of
`line.match(/c/g) ?? []`). -/
def countCh (c : Char) (s : String) : Nat :=
  (s.toList.filter (· == c)).length

/-- JS `Set`-based `uniq`: keep the first occurrence of each element. -/
def uniqAux : List String → List String → List String
  | [], _ => []
  | x :: xs, seen =>
    if x ∈ seen then uniqAux xs seen
    else x :: uniqAux xs (x :: seen)

/-- `uniq(arr)` = `[...new Set(arr)]`. -/
def uniq (l : List String) : List String := uniqAux l []

/-- `String.prototype.split` on a one-character separator (the only kind
used by the script: `'\n'`, `'\t'`, `','`), over a character list. -/
def splitChars (sep : Char) : List Char → List (List Char)
  | [] => [[]]
  | c :: rest =>
    let r := splitChars sep rest
    if c == sep then [] :: r
    else
      match r with
      | h :: t => (c :: h) :: t
      | [] => [[c]]

/-- `s.split(sep)` for a one-character separator. -/
def jsSplit (sep : Char) (s : String) : List String :=
  (splitChars sep s.toList).map String.mk

/-- `s.toLowerCase()` (character-wise ASCII lowering). -/
def lowerStr (s : String) : String :=
  String.mk (s.toList.map Char.toLower)

/-- `splitLines(text)`: split on `/\r?\n/`, delete NUL characters, drop
blank lines.  The regex split is modelled as a split on `'\n'` followed by
removal of one trailing `'\r'`. -/
def splitLines (text : String) : List String :=
  ((jsSplit '\n' text).map (fun s =>
      let cs := s.toList
      let cs := match cs.reverse with
        | '\r' :: r => r.reverse
        | _ => cs
      String.mk (cs.filter (· ≠ '\x00'))))
    |>.filter (fun s => (trimChars s.toList).length ≠ 0)

/-- `detectDelimiter(line)`: tab when tabs occur at least as often as
commas in the line, else comma.  The source returns the one-character
string `"\t"` or `","`; the character itself is returned here. -/
def detectDelimiter (line : String) : Char :=
  if countCh ',' line ≤ countCh '\t' line then '\t' else ','

structure Table where
  header : List String
  rows : List (List String)
  delim : Char
deriving DecidableEq, Repr

/-- `parseTable(lines)`: split every line on the detected delimiter,
right-pad to the maximum column count, and return the first padded row as
`header` and the remaining ones as `rows`. -/
def parseTable (lines : List String) : Table :=
  match lines with
  | [] => ⟨[], [], '\t'⟩
  | l0 :: _ =>
    let delim := detectDelimiter l0
    let rows := lines.map (fun l => jsSplit delim l)
    let maxCols := rows.foldl (fun a r => max a r.length) 0
    let normRows := rows.map (fun r => r ++ List.replicate (maxCols - r.length) "")
    ⟨normRows.headD [], normRows.tail, delim⟩

/-- The best-column loop shared by `inferIsbnColumn` and
`inferPubdateColumn`: walk `(index, count)` pairs keeping the first index
whose count strictly exceeds the best so far (initially `bestCount = 0`,
`best = -1`, modelled as `none`). -/
def bestColAux : List (Nat × Nat) → Option Nat → Nat → Option Nat × Nat
  | [], best, bc => (best, bc)
  | (i, x) :: rest, best, bc =>
    if bc < x then bestColAux rest (some i) x else bestColAux rest best bc

/-- Cells of column `c` among the first 200 rows that pass `isIsbn13Like`
(the per-column total accumulated by `inferIsbnColumn`'s row loop). -/
def isbnColCount (rows : List (List String)) (c : Nat) : Nat :=
  ((rows.take 200).filter (fun r => isIsbn13Like (r.getD c ""))).length

/-- `inferIsbnColumn(header, rows)`: a header cell containing `isbn`
(case-insensitive, after `normStr`) wins; otherwise count
`isIsbn13Like` cells per column over the first 200 rows and take the
best-scoring column, unresolved (`-1`, modelled `none`) below 3. -/
def inferIsbnColumn (header : List String) (rows : List (List String)) : Option Nat :=
  let h := header.map normStr
  match h.findIdx? (fun x => strContains (lowerStr x) "isbn") with
  | some i => some i
  | none =>
    let sample := rows.take 200
    if sample.isEmpty then none
    else
      let cols := header.length
      let ps := (List.range cols).map (fun c => (c, isbnColCount rows c))
      let r := bestColAux ps none 0
      if r.2 < 3 then none else r.1

/-- First separator class `[\/\-\.年]` of the date regexes. -/
def sepY (c : Char) : Bool := c == '/' || c == '-' || c == '.' || c == '年'

/-- Second separator class `[\/\-\.月]` of the date regexes. -/
def sepM (c : Char) : Bool := c == '/' || c == '-' || c == '.' || c == '月'

/-- The day part `(\d{1,2})` at the head of the input: greedily two digits,
else one. -/
def dayParse : List Char → Option (List Char)
  | [] => none
  | [d1] => if d1.isDigit then some [d1] else none
  | d1 :: d2 :: _ =>
    if d1.isDigit then some (if d2.isDigit then [d1, d2] else [d1]) else none

/-- The two-digit-month attempt of the `Y‐M‐D` regex. -/
def ymdTwo (y1 y2 y3 y4 : Char) : List Char → Option (List Char × List Char × List Char)
  | m1 :: m2 :: s2 :: rest2 =>
    if m1.isDigit && m2.isDigit && sepM s2 then
      (dayParse rest2).map (fun d => ([y1, y2, y3, y4], [m1, m2], d))
    else none
  | _ => none

/-- The one-digit-month (backtracked) attempt of the `Y‐M‐D` regex. -/
def ymdOne (y1 y2 y3 y4 : Char) : List Char → Option (List Char × List Char × List Char)
  | m1 :: s2 :: rest2 =>
    if m1.isDigit && sepM s2 then
      (dayParse rest2).map (fun d => ([y1, y2, y3, y4], [m1], d))
    else none
  | _ => none

/-- Anchored match of `^(\d{4})[\/\-\.年](\d{1,2})[\/\-\.月](\d{1,2})`,
returning year, month and day digit lists; the month is matched greedily
(two digits) with backtracking to one digit, exactly as the JS regex
engine does. -/
def ymdParse : List Char → Option (List Char × List Char × List Char)
  | y1 :: y2 :: y3 :: y4 :: s :: rest =>
    if y1.isDigit && y2.isDigit && y3.isDigit && y4.isDigit && sepY s then
      match ymdTwo y1 y2 y3 y4 rest with
      | some r => some r
      | none => ymdOne y1 y2 y3 y4 rest
    else none
  | _ => none

/-- Anchored match of `^(\d{4})[\/\-\.年](\d{1,2})`. -/
def ymParse (cs : List Char) : Option (List Char × List Char) :=
  match cs with
  | y1 :: y2 :: y3 :: y4 :: s :: rest =>
    if y1.isDigit && y2.isDigit && y3.isDigit && y4.isDigit && sepY s then
      match rest with
      | [] => none
      | [m1] => if m1.isDigit then some ([y1, y2, y3, y4], [m1]) else none
      | m1 :: m2 :: _ =>
        if m1.isDigit then
          some ([y1, y2, y3, y4], if m2.isDigit then [m1, m2] else [m1])
        else none
    else none
  | _ => none

/-- `padStart(2, "0")` on a 1- or 2-digit month/day. -/
def pad2 (l : List Char) : List Char :=
  if l.length == 1 then '0' :: l else l

/-- The `^\d{8}$` branch: exactly eight digits become `YYYY/MM/DD`. -/
def tryYyyymmdd (cs : List Char) : Option String :=
  match cs with
  | [a, b, c, d, e, f, g, h] =>
    if a.isDigit && b.isDigit && c.isDigit && d.isDigit &&
        e.isDigit && f.isDigit && g.isDigit && h.isDigit then
      some (String.mk [a, b, c, d, '/', e, f, '/', g, h])
    else none
  | _ => none

/-- The body of `formatPubdateMin` on the trimmed input `t`. -/
def pubdateCore (t : String) : Option String :=
  if t = "" then none
  else
    match tryYyyymmdd t.toList with
    | some s => some s
    | none =>
      match ymdParse t.toList with
      | some (y, m, d) =>
        some (String.mk (y ++ '/' :: pad2 m ++ '/' :: pad2 d))
      | none =>
        match ymParse t.toList with
        | some (y, m) => some (String.mk (y ++ '/' :: pad2 m))
        | none => if t.length ≤ 10 then some t else none

/-- `formatPubdateMin(raw)`: empty/blank input gives `null`; an 8-digit
string is sliced into `YYYY/MM/DD`; else the two anchored date regexes
produce padded `YYYY/MM/DD` / `YYYY/MM`; else the trimmed input itself is
returned when it is at most 10 characters, and `null` otherwise. -/
def formatPubdateMin (raw : String) : Option String :=
  if raw = "" then none
  else pubdateCore (String.mk (trimChars raw.toList))

/-- Header keywords preferred by `inferPubdateColumn`. -/
def pubdateHeaderKeys : List String :=
  ["発売日", "発行日", "配本日", "刊行日", "発売", "発行", "刊行"]

/-- Cells of column `c` among the first 200 rows on which
`formatPubdateMin` returns a (truthy) value. -/
def pubColCount (rows : List (List String)) (c : Nat) : Nat :=
  ((rows.take 200).filter (fun r => (formatPubdateMin (r.getD c "")).isSome)).length

/-- `inferPubdateColumn(header, rows)`: a header cell containing one of the
date keywords wins; otherwise the column with the most date-parsable cells
over the first 200 rows, unresolved below 3. -/
def inferPubdateColumn (header : List String) (rows : List (List String)) : Option Nat :=
  let h := header.map normStr
  match h.findIdx? (fun x => pubdateHeaderKeys.any (fun k => strContains x k)) with
  | some i => some i
  | none =>
    let sample := rows.take 200
    if sample.isEmpty then none
    else
      let cols := header.length
      let ps := (List.range cols).map (fun c => (c, pubColCount rows c))
      let r := bestColAux ps none 0
      if r.2 < 3 then none else r.1

/-- `lineHasAnyLabel(line, labels)`: the normalized line contains some
nonempty label as a substring. -/
def lineHasAnyLabel (line : String) (labels : List String) : Bool :=
  if labels.length == 0 then false
  else
    let t := normStr line
    labels.any (fun lb => lb ≠ "" && strContains t lb)

/-- JS `\w` (word character): `[A-Za-z0-9_]`. -/
def isWordChar (c : Char) : Bool :=
  c.isDigit || (c ≥ 'a' && c ≤ 'z') || (c ≥ 'A' && c ≤ 'Z') || c == '_'

/-- Exactly eight digits at the head, with a word boundary after them:
returns them together with the assurance that the ninth character (if any)
is not a word character. -/
def eightDigitsBounded (cs : List Char) : Option (List Char) :=
  let d := cs.take 8
  if d.length == 8 && d.all Char.isDigit then
    match cs.drop 8 with
    | [] => some d
    | c :: _ => if isWordChar c then none else some d
  else none

/-- Leftmost match of `/\b(\d{8})\b/`: scan positions carrying the
previous character for the opening word boundary. -/
def scan8 (prev : Option Char) : List Char → Option (List Char)
  | [] => none
  | c :: rest =>
    let boundary := match prev with
      | none => true
      | some p => !isWordChar p
    match (if boundary then eightDigitsBounded (c :: rest) else none) with
    | some d => some d
    | none => scan8 (some c) rest

/-- Leftmost match of `/(\d{4})[\/\-\.年](\d{1,2})[\/\-\.月](\d{1,2})/`:
the matched text (`m[0]`). -/
def scanYmd : List Char → Option (List Char)
  | [] => none
  | c :: rest =>
    match ymdParse (c :: rest) with
    | some (_, m, d) => some ((c :: rest).take (4 + 1 + m.length + 1 + d.length))
    | none => scanYmd rest

/-- The per-row pubdate recovery of the extraction loop: the inferred
column's parsed value first, else the row's first bounded 8-digit token,
else the row's first `Y‐M‐D` shaped token, each through
`formatPubdateMin`. -/
def rowPubdate (pubCol : Option Nat) (r : List String) (joined : String) : Option String :=
  let pd0 : Option String :=
    match pubCol with
    | some c => formatPubdateMin (r.getD c "")
    | none => none
  match pd0 with
  | some p => some p
  | none =>
    match scan8 none joined.toList with
    | some d8 => formatPubdateMin (String.mk d8)
    | none =>
      match scanYmd joined.toList with
      | some m0 => formatPubdateMin (String.mk m0)
      | none => none

/-- One row of `extractIsbnsAndPubdateFromTrcText`'s loop: the recovered
ISBN (`""` when the row is rejected). -/
def rowIsbn (isbnCol : Option Nat) (r : List String) (joined : String) : String :=
  let isbn0 : String :=
    match isbnCol with
    | some c =>
      let v := normIsbn (r.getD c "")
      if isbn13Spec v then v else ""
    | none => ""
  if isbn0 = "" then extractIsbnFromTextLine joined else isbn0

/-- The pubdate-map update of one accepted row (`first non-empty wins`). -/
def pdInsert (pdMap : List (String × String)) (isbn : String) :
    Option String → List (String × String)
  | some p => if (pdMap.lookup isbn).isNone then pdMap ++ [(isbn, p)] else pdMap
  | none => pdMap

/-- The extraction loop over data rows, walked left to right with the
ISBN accumulator kept reversed and the first-wins `isbn ↦ pubdate`
association in insertion order. -/
def extractLoop (labels : List String) (isbnCol pubCol : Option Nat) :
    List (List String) → List String → List (String × String) →
      List String × List (String × String)
  | [], isbns, pdMap => (isbns.reverse, pdMap)
  | r :: rest, isbns, pdMap =>
    if !lineHasAnyLabel (String.intercalate "\t" r) labels then
      extractLoop labels isbnCol pubCol rest isbns pdMap
    else if rowIsbn isbnCol r (String.intercalate "\t" r) = "" then
      extractLoop labels isbnCol pubCol rest isbns pdMap
    else
      extractLoop labels isbnCol pubCol rest
        (rowIsbn isbnCol r (String.intercalate "\t" r) :: isbns)
        (pdInsert pdMap (rowIsbn isbnCol r (String.intercalate "\t" r))
          (rowPubdate pubCol r (String.intercalate "\t" r)))

structure Extraction where
  isbns : List String
  pubdateByIsbn : List (String × String)
  pubCol : Option Nat
deriving DecidableEq, Repr

/-- `extractIsbnsAndPubdateFromTrcText(text, labels)`: parse the table,
infer the ISBN and pubdate columns, and walk the label-matched rows. -/
def extractIsbnsAndPubdateFromTrcText (text : String) (labels : List String) : Extraction :=
  let lines := splitLines text
  if lines.isEmpty then ⟨[], [], none⟩
  else
    let t := parseTable lines
    let isbnCol := inferIsbnColumn t.header t.rows
    let pubCol := inferPubdateColumn t.header t.rows
    let (isbns, pdMap) := extractLoop labels isbnCol pubCol t.rows [] []
    ⟨uniq isbns, pdMap, pubCol⟩

/-- A catalogue record as built by `pick` / `loadExistingItems` and
persisted in `books.json`'s `items` array.  `cover`/`pubdate` are
`null`-able; `none` models `null`/`undefined`. -/
structure Item where
  isbn : String
  title : String
  cover : Option String := none
  pubdate : Option String := none
  amazon : String := ""
deriving DecidableEq, Repr

/-- The openBD `summary` block, with `""` standing for an absent or falsy
field. -/
structure BdSummary where
  isbn : String := ""
  title : String := ""
  cover : String := ""
  pubdate : String := ""
deriving DecidableEq, Repr

/-- One openBD result entry: the `summary` block plus the nested fallback
fields read by `pickCover` (`hanmoto.cover`,
`onix...ResourceLink`) and `pickTitle` (`onix...TitleText.content`);
`""` stands for an absent field. -/
structure BdEntry where
  summary : Option BdSummary := none
  hanmotoCover : String := ""
  onixResourceLink : String := ""
  onixTitleText : String := ""
deriving DecidableEq, Repr

/-- `pickCover(entry)`: `summary.cover`, else `hanmoto.cover`, else the
ONIX resource link, else `null`. -/
def pickCover (e : BdEntry) : Option String :=
  let s := e.summary.getD {}
  if s.cover ≠ "" then some s.cover
  else if e.hanmotoCover ≠ "" then some e.hanmotoCover
  else if e.onixResourceLink ≠ "" then some e.onixResourceLink
  else none

/-- `pickTitle(entry)`: `summary.title`, else the ONIX title text, else
`""`. -/
def pickTitle (e : BdEntry) : String :=
  let s := e.summary.getD {}
  if s.title ≠ "" then s.title
  else if e.onixTitleText ≠ "" then e.onixTitleText
  else ""

/-- `pickPubdateFromOpenbd(entry)`: `formatPubdateMin(summary.pubdate ?? "")`. -/
def pickPubdateFromOpenbd (e : BdEntry) : Option String :=
  formatPubdateMin (e.summary.getD {}).pubdate

/-- `pick(entry, fallbackIsbn, trcPubdate)`: build a record; a nullish
entry, an empty ISBN or an empty title rejects it.  The TRC pubdate wins
over openBD's. -/
def pick (entry : Option BdEntry) (fallbackIsbn : String) (trcPubdate : Option String) :
    Option Item :=
  match entry with
  | none => none
  | some e =>
    let s := e.summary.getD {}
    let isbn := normIsbn (if s.isbn ≠ "" then s.isbn else fallbackIsbn)
    let title := pickTitle e
    let cover := pickCover e
    let pubdate :=
      match trcPubdate with
      | some p => some p
      | none => pickPubdateFromOpenbd e
    if isbn = "" || title = "" then none
    else some { isbn, title, cover, pubdate, amazon := amazonUrlFromIsbn isbn }

/-- The `main` loop that turns the positionally-aligned openBD result list
into `itemsTodayAll`: `pick(openbd[i], isbns[i], pubdateByIsbn.get(isbns[i]) ?? null)`,
keeping the non-null records. -/
def buildItemsToday (isbns : List String) (pdMap : List (String × String))
    (openbd : List (Option BdEntry)) : List Item :=
  (openbd.enum).filterMap (fun p =>
    let isbn := isbns.getD p.1 ""
    pick p.2 isbn (pdMap.lookup isbn))

def NDL_THUMB (isbn13 : String) : String :=
  "https://ndlsearch.ndl.go.jp/thumbnail/" ++ isbn13 ++ ".jpg"

def OL_THUMB (isbn13 : String) : String :=
  "https://covers.openlibrary.org/b/isbn/" ++ isbn13 ++ "-L.jpg?default=false"

/-- One record of `fillMissingCovers`' loop: a cover-less record with a
valid ISBN gets the first accepted thumbnail URL (NDL first, then Open
Library); everything else is returned unchanged.  `probeOk url` says
whether `probeImage(url)` accepts the URL. -/
def fillCover (probeOk : String → Bool) (it : Item) : Item :=
  if it.cover.isSome then it
  else
    let isbn13 := normIsbn it.isbn
    if !isbn13Spec isbn13 then it
    else if probeOk (NDL_THUMB isbn13) then { it with cover := some (NDL_THUMB isbn13) }
    else if probeOk (OL_THUMB isbn13) then { it with cover := some (OL_THUMB isbn13) }
    else it

/-- `fillMissingCovers(items)` with the network abstracted behind
`probeOk`. -/
def fillMissingCovers (probeOk : String → Bool) (items : List Item) : List Item :=
  items.map (fillCover probeOk)

/-- A parsed JSON document (`JSON.parse` output).  `num` is restricted to
integers, which covers every numeric value these files ever hold. -/
inductive Json where
  | null
  | bool (b : Bool)
  | num (n : Int)
  | str (s : String)
  | arr (xs : List Json)
  | obj (fields : List (String × Json))

mutual

/-- JS `String(v)` on a JSON value: strings pass through, arrays join with
`","` (nulls becoming `""`), objects print as `[object Object]`. -/
def jsToString : Json → String
  | .null => "null"
  | .bool b => cond b "true" "false"
  | .num n => toString n
  | .str s => s
  | .arr xs => String.intercalate "," (jsArrStrings xs)
  | .obj _ => "[object Object]"

/-- Elementwise conversion used by array `join`. -/
def jsArrStrings : List Json → List String
  | [] => []
  | .null :: rest => "" :: jsArrStrings rest
  | x :: rest => jsToString x :: jsArrStrings rest

end

/-- Field access on an object (`JSON.parse` keeps the last duplicate key);
`none` models `undefined` (also for non-objects, as `x?.k`). -/
def jget (j : Json) (k : String) : Option Json :=
  match j with
  | .obj fs => ((fs.reverse).find? (fun p => p.1 == k)).map (·.2)
  | _ => none

/-- `String(x?.k ?? "")`: missing and `null` fields become `""`. -/
def jfieldString (x : Json) (k : String) : String :=
  match jget x k with
  | none => ""
  | some .null => ""
  | some v => jsToString v

/-- `x?.k ?? null` as an option (missing/`null` ↦ `none`).  Non-string
values are carried as their `String(_)` rendering; the documents this
script writes only ever hold strings or `null` here. -/
def jfieldOpt (x : Json) (k : String) : Option String :=
  match jget x k with
  | none => none
  | some .null => none
  | some v => some (jsToString v)

/-- JS truthiness of a JSON value. -/
def jsTruthy : Json → Bool
  | .null => false
  | .bool b => b
  | .num n => n ≠ 0
  | .str s => s ≠ ""
  | .arr _ => true
  | .obj _ => true

/-- `json.items` when it is an array, else `[]` (`Array.isArray` guard;
a `JSON.parse` result of `null` throws and is caught, with the same
outcome). -/
def jitems (j : Json) : List Json :=
  match jget j "items" with
  | some (.arr xs) => xs
  | _ => []

/-- The item mapping inside `loadExistingItems`. -/
def loadItem (x : Json) : Item :=
  { isbn := normIsbn (jfieldString x "isbn")
    title := jfieldString x "title"
    cover := jfieldOpt x "cover"
    pubdate := jfieldOpt x "pubdate"
    amazon :=
      match jget x "amazon" with
      | some .null => loadItemAmazonFallback x
      | some v => jsToString v
      | none => loadItemAmazonFallback x }
where
  /-- `x?.isbn ? amazonUrlFromIsbn(normIsbn(x.isbn)) : "#"`. -/
  loadItemAmazonFallback (x : Json) : String :=
    match jget x "isbn" with
    | some v => if jsTruthy v then amazonUrlFromIsbn (normIsbn (jsToString v)) else "#"
    | none => "#"

/-- `loadExistingItems()`: `none` models a missing, unreadable or
unparsable `books.json` (the `catch` branch); otherwise map the `items`
array and keep records with a well-formed ISBN and nonempty title. -/
def loadExistingItems (file : Option Json) : List Item :=
  match file with
  | none => []
  | some j =>
    ((jitems j).map loadItem).filter (fun x => isbn13Spec x.isbn && x.title ≠ "")

/-- The merge key: `normIsbn(it?.isbn)`. -/
def itemKey (x : Item) : String := normIsbn x.isbn

/-- `new Map(oldItems.map(x => [normIsbn(x.isbn), x])).get(k)`: the map
constructor keeps the last pair per key. -/
def mapGet (old : List Item) (k : String) : Option Item :=
  (old.reverse).find? (fun x => itemKey x == k)

/-- The gap patch applied to each of `newItems` inside
`mergeRocketPencil`: absent cover/pubdate are healed from the old record
with the same key, and a falsy `amazon` is replaced. -/
def patchItem (old : List Item) (it : Item) : Item :=
  let k := itemKey it
  match mapGet old k with
  | none => it
  | some o =>
    { it with
      cover := match it.cover with | some c => some c | none => o.cover
      pubdate := match it.pubdate with | some p => some p | none => o.pubdate
      amazon :=
        if it.amazon ≠ "" then it.amazon
        else if o.amazon ≠ "" then o.amazon
        else if k ≠ "" then amazonUrlFromIsbn k
        else "#" }

/-- The skip test of the merge loop: `!k || seen.has(k)`. -/
def skipKey (seen : List String) (k : String) : Bool :=
  k == "" || seen.contains k

/-- The dedup-and-collect loop of `mergeRocketPencil`: walk the
concatenation, skip empty or already-seen keys, push, and stop as soon as
`limit` entries have been collected. -/
def mergeScan (limit : Nat) : List Item → List String → List Item → List Item
  | [], _, acc => acc.reverse
  | it :: rest, seen, acc =>
    let k := itemKey it
    if skipKey seen k then mergeScan limit rest seen acc
    else
      let acc' := it :: acc
      if limit ≤ acc'.length then acc'.reverse
      else mergeScan limit rest (k :: seen) acc'

/-- The same walk without the capacity stop: what the loop would collect
with an infinite limit. -/
def dedupKeys : List Item → List String → List Item
  | [], _ => []
  | it :: rest, seen =>
    let k := itemKey it
    if skipKey seen k then dedupKeys rest seen
    else it :: dedupKeys rest (k :: seen)

/-- `mergeRocketPencil(newItems, oldItems, limit)`. -/
def mergeRocketPencil (newItems oldItems : List Item) (limit : Nat) : List Item :=
  let patchedNew := newItems.map (patchItem oldItems)
  mergeScan limit (patchedNew ++ oldItems) [] []

def TAKE_ISBNS : Nat := 1200

/-- What a finished run does to `books.json`. -/
inductive RunOutcome where
  | noop
  | write (items : List Item)
deriving DecidableEq, Repr

/-- `itemsToday` as computed by `main`: today's candidates capped at 8,
then run through the cover fallback. -/
def itemsTodayOf (probeOk : String → Bool) (trcText : String) (labels : List String)
    (openbd : List (Option BdEntry)) : List Item :=
  let ex := extractIsbnsAndPubdateFromTrcText trcText labels
  let isbns := ex.isbns.take TAKE_ISBNS
  fillMissingCovers probeOk ((buildItemsToday isbns ex.pubdateByIsbn openbd).take 8)

/-- The persistence decision of `main` (lines 513–590): network, archive
and clock effects are inputs.  `prior` is the current `books.json`
content (`none` = the file does not exist or cannot be parsed);
`openbd` is the positionally-aligned batch-lookup result. -/
def runMain (probeOk : String → Bool) (prior : Option Json) (trcText : String)
    (labels : List String) (openbd : List (Option BdEntry)) : RunOutcome :=
  let ex := extractIsbnsAndPubdateFromTrcText trcText labels
  let isbns := ex.isbns.take TAKE_ISBNS
  if isbns.isEmpty then
    match prior with
    | none => .write []
    | some _ => .noop
  else
    let itemsToday := itemsTodayOf probeOk trcText labels openbd
    if itemsToday.isEmpty then .noop
    else
      let existing := loadExistingItems prior
      .write (mergeRocketPencil itemsToday existing 8)

/-- Serialization of a record into the persisted document. -/
def itemToJson (it : Item) : Json :=
  .obj [("isbn", .str it.isbn), ("title", .str it.title),
        ("cover", match it.cover with | some c => .str c | none => .null),
        ("pubdate", match it.pubdate with | some p => .str p | none => .null),
        ("amazon", .str it.amazon)]

/-- The persisted output document `{generated_at, source, items}`. -/
def booksJson (now src : String) (items : List Item) : Json :=
  .obj [("generated_at", .str now), ("source", .str src),
        ("items", .arr (items.map itemToJson))]

/-- `books.json` after the run: unchanged on a no-op, replaced by the
serialized document on a write. -/
def postState (now src : String) (prior : Option Json) : RunOutcome → Option Json
  | .noop => prior
  | .write items => some (booksJson now src items)

/-- Modelled from the spec (§4.2 step 4), for comparison with
`parseTable`: a first line "linguistically resembles a header" when it
contains a recognizable identifier keyword (`isbn`, case-insensitive) or
one of the domain header-words (the date header keywords). -/
def specLooksLikeHeader (line : String) : Bool :=
  strContains (lowerStr (normStr line)) "isbn" ||
    pubdateHeaderKeys.any (fun k => strContains (normStr line) k)

/-- Modelled from the spec (§4.3), for comparison with `isIsbn13Like`: a
"plausible 10-character legacy form" — after cleanup, ten characters,
nine digits then a digit or `X`. -/
def specIsbn10Like (s : String) : Bool :=
  let cs := (normIsbn s).toList
  cs.length == 10 && (cs.take 9).all Char.isDigit &&
    (match cs.getLast? with
     | some c => c.isDigit || c == 'X'
     | none => false)

/-- Modelled from the spec (§4.3), for comparison with
`inferIsbnColumn`: the claimed identifier-column scoring — header-label
match first, otherwise over at most the first 200 data rows award +3 per
13-digit reserved-prefix cell and +1 per plausible legacy cell, pick the
highest-scoring column, and require a total of at least 5. -/
def specInferIsbnColumn (header : List String) (rows : List (List String)) : Option Nat :=
  let h := header.map normStr
  match h.findIdx? (fun x => strContains (lowerStr x) "isbn") with
  | some i => some i
  | none =>
    let sample := rows.take 200
    let cols := header.length
    let score := fun (c : Nat) =>
      (sample.map (fun r =>
        (if isIsbn13Like (r.getD c "") then 3 else 0) +
          (if specIsbn10Like (r.getD c "") then 1 else 0))).sum
    let ps := (List.range cols).map (fun c => (c, score c))
    let r := bestColAux ps none 0
    if r.2 < 5 then none else r.1

/-- Modelled from the spec: the exact `YYYY/MM/DD` shape. -/
def isYmdShape (s : String) : Bool :=
  match s.toList with
  | [a, b, c, d, s1, e, f, s2, g, h] =>
    a.isDigit && b.isDigit && c.isDigit && d.isDigit && s1 == '/' &&
      e.isDigit && f.isDigit && s2 == '/' && g.isDigit && h.isDigit
  | _ => false

/-- Modelled from the spec: the exact `YYYY/MM` shape. -/
def isYmShape (s : String) : Bool :=
  match s.toList with
  | [a, b, c, d, s1, e, f] =>
    a.isDigit && b.isDigit && c.isDigit && d.isDigit && s1 == '/' &&
      e.isDigit && f.isDigit
  | _ => false

/-- A one- or two-digit match of `(\d{1,2})`. -/
def TwoDigitish (l : List Char) : Prop :=
  (∃ a, l = [a] ∧ a.isDigit = true) ∨
    (∃ a b, l = [a, b] ∧ a.isDigit = true ∧ b.isDigit = true)

/-- A two-line TRC extract: a header-looking first line and one
label-matched data row carrying an ISBN. -/
def sampleText : String := "h1\th2\nSTAR\t9784001234567"

def sampleLabels : List String := ["STAR"]

/-- One openBD entry holding only a title, so that `pick` succeeds via
the fallback ISBN. -/
def sampleBd : List (Option BdEntry) := [some { summary := some { title := "Title" } }]

/-- The record the sample run builds for its single ISBN. -/
def sampleItem : Item :=
  { isbn := "9784001234567", title := "Title",
    amazon := amazonUrlFromIsbn "9784001234567" }

/-- A prior `books.json` document with an empty `items` array. -/
def samplePrior : Json := .obj [("items", .arr [])]

/-- A record with an empty `amazon` field, as `loadExistingItems` can
produce from a persisted document whose `amazon` is `""`. -/
def emptyAmazonItem : Item := { isbn := "9784001234567", title := "t" }

/-- A today-record with no cover. -/
def gapNew : Item := { isbn := "9784001234567", title := "n", amazon := "u" }

/-- A prior record for the same identifier carrying a cover. -/
def gapOldGood : Item :=
  { isbn := "9784001234567", title := "t", cover := some "x", amazon := "u" }

/-- A later prior record for the same identifier with no cover. -/
def gapOldBad : Item := { isbn := "9784001234567", title := "t2", amazon := "u" }

/-- A malformed persisted document: one good item, one with a bad
identifier, one with an empty title. -/
def dirtyDoc : Json :=
  .obj [("items", .arr
    [.obj [("isbn", .str "978-4-00-123456-7"), ("title", .str "T")],
     .obj [("isbn", .str "nope"), ("title", .str "U")],
     .obj [("isbn", .str "9784009876543"), ("title", .str "")]])]

/-! ### Sanity checks -/

example :
    runMain (fun _ => false) (some samplePrior) sampleText sampleLabels sampleBd =
      .write [sampleItem] := by
  decide

example : specLooksLikeHeader "ISBN\tタイトル" = true := by decide
example : specLooksLikeHeader "9784001234567\tFoo" = false := by decide
example : specIsbn10Like "4-00-123456-0" = true := by decide
example : specInferIsbnColumn ["col"] [["9784001234567"], ["9789991234567"]] = some 0 := by
  decide
example : inferIsbnColumn ["col"] [["9784001234567"], ["9789991234567"]] = none := by decide

example : splitLines "a\r\nb\n\n c " = ["a", "b", " c "] := by decide
example : detectDelimiter "a,b,c" = ',' := by decide
example : detectDelimiter "a\tb,c" = '\t' := by decide
example : detectDelimiter "abc" = '\t' := by decide
example : (parseTable ["a\tb", "c"]).rows = [["c", ""]] := by decide
example : formatPubdateMin "20260110" = some "2026/01/10" := by decide
example : formatPubdateMin "2026/1/2" = some "2026/01/02" := by decide
example : formatPubdateMin "2026-12" = some "2026/12" := by decide
example : formatPubdateMin "2026/12." = some "2026/12" := by decide
example : formatPubdateMin "hello" = some "hello" := by decide
example : formatPubdateMin "hello world" = none := by decide
example : inferIsbnColumn ["a", "ISBNコード"] [] = some 1 := by decide
example : inferIsbnColumn ["a"] [["9784001234567"], ["9784001234568"]] = none := by decide
example : inferIsbnColumn ["a", "b"]
    [["x", "9784001234567"], ["y", "9784001234568"], ["z", "9784001234569"]] = some 1 := by
  decide

example : normIsbn " 978-4-00-123456-7 " = "9784001234567" := by decide
example : isIsbn13Like "978-4001234567" = true := by decide
example : isbn13Spec "9784001234567" = true := by decide
example : isbn13Spec "9774001234567" = false := by decide
example : extractIsbnFromTextLine "STAR 9784001234567 x" = "9784001234567" := by decide
example : strContains "hello" "ell" = true := by decide
example : uniq ["a", "b", "a"] = ["a", "b"] := by decide

/-! ### Character-level facts -/

theorem toUpper_of_isDigit {c : Char} (h : c.isDigit = true) : c.toUpper = c := by
  simp [Char.isDigit] at h
  obtain ⟨h1, h2⟩ := h
  have h2' : c.val.toNat ≤ 57 := h2
  simp only [Char.toUpper, Char.toNat]
  rw [if_neg]
  omega

theorem wsChar_of_isDigit {c : Char} (h : c.isDigit = true) : wsChar c = false := by
  simp only [wsChar, Bool.or_eq_false_iff, beq_eq_false_iff_ne, ne_eq]
  refine ⟨⟨⟨⟨⟨?_, ?_⟩, ?_⟩, ?_⟩, ?_⟩, ?_⟩ <;>
    (rintro rfl; simp [Char.isDigit] at h)

/-- Every character of a `normIsbn` output is a digit or `X`. -/
theorem normIsbn_chars (s : String) :
    ∀ c ∈ (normIsbn s).toList, c.isDigit = true ∨ c = 'X' := by
  intro c hc
  simp only [normIsbn] at hc
  change c ∈ ((normStr s).toList.filter isbnChar).map Char.toUpper at hc
  obtain ⟨d, hd, rfl⟩ := List.mem_map.mp hc
  have hd' := List.of_mem_filter hd
  simp only [isbnChar, Bool.or_eq_true, beq_iff_eq] at hd'
  rcases hd' with (h | h) | h
  · left
    rw [toUpper_of_isDigit h]
    exact h
  · right
    rw [h]
    decide
  · right
    rw [h]
    decide

theorem dropWhile_eq_self_of_forall {p : Char → Bool} {l : List Char}
    (h : ∀ c ∈ l, p c = false) : l.dropWhile p = l := by
  cases l with
  | nil => rfl
  | cons a l =>
    rw [List.dropWhile_cons, if_neg]
    simp [h a (by simp)]

theorem trimChars_eq_self {l : List Char} (h : ∀ c ∈ l, wsChar c = false) :
    trimChars l = l := by
  unfold trimChars
  rw [dropWhile_eq_self_of_forall h,
    dropWhile_eq_self_of_forall (fun c hc => h c (List.mem_reverse.mp hc)),
    List.reverse_reverse]

theorem filter_map_eq_self_of_norm {l : List Char}
    (hl : ∀ c ∈ l, c.isDigit = true ∨ c = 'X') :
    (l.filter isbnChar).map Char.toUpper = l := by
  induction l with
  | nil => rfl
  | cons a l ih =>
    have ha := hl a (by simp)
    have hfa : isbnChar a = true := by
      rcases ha with h | h
      · simp [isbnChar, h]
      · rw [h]; rfl
    rw [List.filter_cons, if_pos hfa, List.map_cons,
      ih (fun c hc => hl c (by simp [hc]))]
    congr 1
    rcases ha with h | h
    · exact toUpper_of_isDigit h
    · rw [h]; decide

theorem normIsbn_idem (s : String) : normIsbn (normIsbn s) = normIsbn s := by
  have hch := normIsbn_chars s
  have h1 : trimChars (normIsbn s).toList = (normIsbn s).toList := by
    refine trimChars_eq_self (fun c hc => ?_)
    rcases hch c hc with h | h
    · exact wsChar_of_isDigit h
    · rw [h]; rfl
  show String.mk
      (((String.mk (trimChars (nfkc (normIsbn s)).toList)).toList.filter isbnChar).map
        Char.toUpper) = normIsbn s
  rw [show nfkc (normIsbn s) = normIsbn s from rfl,
    show (String.mk (trimChars (normIsbn s).toList)).toList
      = trimChars (normIsbn s).toList from rfl,
    h1, filter_map_eq_self_of_norm hch]
  rfl

/-- `normIsbn` outputs never contain whitespace etc.; in particular a
nonempty output is fixed by `normIsbn`. -/
theorem isbn13Spec_ne_empty {s : String} (h : isbn13Spec s = true) : s ≠ "" := by
  intro he
  subst he
  simp [isbn13Spec] at h

/-! ### Merge-engine lemmas -/

theorem skipKey_eq_false {seen : List String} {k : String} :
    skipKey seen k = false ↔ k ≠ "" ∧ k ∉ seen := by
  simp [skipKey, List.elem_iff]

/-- The capacity-stopping loop is the unbounded dedup walk truncated to
the remaining capacity. -/
theorem mergeScan_eq (limit : Nat) (pending : List Item) :
    ∀ seen acc, acc.length < limit →
      mergeScan limit pending seen acc =
        acc.reverse ++ (dedupKeys pending seen).take (limit - acc.length) := by
  induction pending with
  | nil =>
    intro seen acc _
    simp [mergeScan, dedupKeys]
  | cons it rest ih =>
    intro seen acc h
    show (if skipKey seen (itemKey it) then mergeScan limit rest seen acc
      else if limit ≤ (it :: acc).length then (it :: acc).reverse
      else mergeScan limit rest (itemKey it :: seen) (it :: acc)) =
      acc.reverse ++ (dedupKeys (it :: rest) seen).take (limit - acc.length)
    by_cases hs : skipKey seen (itemKey it) = true
    · rw [if_pos hs, ih seen acc h, dedupKeys]
      simp only [hs, if_true]
    · rw [if_neg (by simp [hs]), dedupKeys]
      simp only [eq_false_of_ne_true hs, if_false]
      by_cases hl : limit ≤ (it :: acc).length
      · have hlim : limit = acc.length + 1 := by
          simp only [List.length_cons] at hl
          omega
        rw [if_pos hl, hlim]
        simp [List.take_cons]
      · rw [if_neg hl]
        simp only [List.length_cons] at hl
        rw [ih (itemKey it :: seen) (it :: acc) (by simpa using hl)]
        have : limit - acc.length = (limit - (acc.length + 1)) + 1 := by omega
        rw [this]
        simp

/-- `mergeRocketPencil` at the production capacity 8. -/
theorem mergeRocketPencil_eq (newItems oldItems : List Item) :
    mergeRocketPencil newItems oldItems 8 =
      (dedupKeys (newItems.map (patchItem oldItems) ++ oldItems) []).take 8 := by
  unfold mergeRocketPencil
  rw [mergeScan_eq 8 _ [] [] (by simp)]
  rfl

theorem dedupKeys_sub_nil (ys : List Item) :
    ∀ seen, (∀ x ∈ ys, itemKey x = "" ∨ itemKey x ∈ seen) →
      dedupKeys ys seen = [] := by
  induction ys with
  | nil => intro seen _; rfl
  | cons y ys ih =>
    intro seen h
    have hy : skipKey seen (itemKey y) = true := by
      rcases h y (by simp) with h1 | h1 <;> simp [skipKey, h1, List.elem_iff]
    show (if skipKey seen (itemKey y) then dedupKeys ys seen
      else y :: dedupKeys ys (itemKey y :: seen)) = []
    rw [if_pos hy]
    exact ih seen (fun x hx => h x (by simp [hx]))

/-- Splitting the dedup walk over a front block with pairwise-fresh keys:
the block passes through (minus empty keys), and every nonempty key of
the block is seen afterwards. -/
theorem dedupKeys_append (xs : List Item) :
    ∀ (ys : List Item) (seen : List String), (xs.map itemKey).Nodup →
      (∀ x ∈ xs, itemKey x ∉ seen) →
      ∃ seen', dedupKeys (xs ++ ys) seen =
          xs.filter (fun x => itemKey x != "") ++ dedupKeys ys seen' ∧
        (∀ x ∈ xs, itemKey x ≠ "" → itemKey x ∈ seen') ∧
        (∀ k ∈ seen, k ∈ seen') := by
  induction xs with
  | nil =>
    intro ys seen _ _
    exact ⟨seen, by simp, fun x hx => absurd hx (by simp), fun k hk => hk⟩
  | cons x xs ih =>
    intro ys seen hnd hfresh
    rw [List.map_cons, List.nodup_cons] at hnd
    have hdef : dedupKeys ((x :: xs) ++ ys) seen =
        if skipKey seen (itemKey x) then dedupKeys (xs ++ ys) seen
        else x :: dedupKeys (xs ++ ys) (itemKey x :: seen) := rfl
    by_cases hx : itemKey x = ""
    · have hs : skipKey seen (itemKey x) = true := by simp [skipKey, hx]
      obtain ⟨seen', heq, hmem, hsub⟩ :=
        ih ys seen hnd.2 (fun y hy => hfresh y (List.mem_cons_of_mem x hy))
      refine ⟨seen', ?_, ?_, hsub⟩
      · rw [hdef, if_pos hs, heq, List.filter_cons, if_neg (by simp [hx])]
      · intro y hy hne
        rcases List.mem_cons.mp hy with rfl | hy'
        · exact absurd hx hne
        · exact hmem y hy' hne
    · have hs : skipKey seen (itemKey x) = false := by
        rw [skipKey_eq_false]
        exact ⟨hx, hfresh x (by simp)⟩
      have hfresh' : ∀ y ∈ xs, itemKey y ∉ itemKey x :: seen := by
        intro y hy h
        rcases List.mem_cons.mp h with heq | hmem2
        · exact hnd.1 (heq ▸ List.mem_map_of_mem itemKey hy)
        · exact hfresh y (List.mem_cons_of_mem x hy) hmem2
      obtain ⟨seen', heq, hmem, hsub⟩ := ih ys (itemKey x :: seen) hnd.2 hfresh'
      refine ⟨seen', ?_, ?_, fun k hk => hsub k (List.mem_cons_of_mem _ hk)⟩
      · rw [hdef, if_neg (by simp [hs]), heq, List.filter_cons, if_pos (by simp [hx])]
        rfl
      · intro y hy hne
        rcases List.mem_cons.mp hy with rfl | hy'
        · exact hsub _ (by simp)
        · exact hmem y hy' hne

theorem patchItem_isbn (old : List Item) (it : Item) : (patchItem old it).isbn = it.isbn := by
  simp only [patchItem]
  cases h : mapGet old (itemKey it) <;> simp [h]

theorem itemKey_patchItem (old : List Item) (it : Item) :
    itemKey (patchItem old it) = itemKey it := by
  unfold itemKey
  rw [patchItem_isbn]

theorem find_by_key {l : List Item} (h : (l.map itemKey).Nodup) {it : Item} (hit : it ∈ l) :
    l.find? (fun x => itemKey x == itemKey it) = some it := by
  induction l with
  | nil => cases hit
  | cons a l ih =>
    rw [List.map_cons, List.nodup_cons] at h
    rcases List.mem_cons.mp hit with rfl | hit'
    · exact List.find?_cons_of_pos _ (by simp)
    · have hne : itemKey a ≠ itemKey it := by
        intro hc
        exact h.1 (hc ▸ List.mem_map_of_mem itemKey hit')
      rw [List.find?_cons_of_neg _ (by simp [hne])]
      exact ih h.2 hit'

theorem mapGet_self {m : List Item} (hnodup : (m.map itemKey).Nodup) {it : Item}
    (hit : it ∈ m) : mapGet m (itemKey it) = some it := by
  unfold mapGet
  exact find_by_key
    (by rw [List.map_reverse]; exact List.nodup_reverse.mpr hnodup)
    (List.mem_reverse.mpr hit)

theorem patchItem_self {m : List Item} (hnodup : (m.map itemKey).Nodup) {it : Item}
    (hit : it ∈ m) (hamz : it.amazon ≠ "") : patchItem m it = it := by
  have hget := mapGet_self hnodup hit
  obtain ⟨isb, ttl, cov, pd, amz⟩ := it
  simp only [patchItem]
  rw [hget]
  simp only at hamz
  cases cov <;> cases pd <;> simp [hamz]

/-! ### Claim C2: capacity invariant -/

/-- C2.  Capacity invariant: `mergeRocketPencil(new, old, 8)` always has
at most 8 records, and any record list a run writes to `books.json` has
at most 8 records. -/
theorem merge_capacity :
    (∀ newItems oldItems : List Item,
      (mergeRocketPencil newItems oldItems 8).length ≤ 8) ∧
    (∀ (probeOk : String → Bool) (prior : Option Json) (trcText : String)
        (labels : List String) (openbd : List (Option BdEntry)) (items : List Item),
      runMain probeOk prior trcText labels openbd = .write items → items.length ≤ 8) := by
  have h1 : ∀ newItems oldItems : List Item,
      (mergeRocketPencil newItems oldItems 8).length ≤ 8 := by
    intro newItems oldItems
    rw [mergeRocketPencil_eq]
    exact List.length_take_le 8 _
  refine ⟨h1, ?_⟩
  intro probeOk prior trcText labels openbd items hw
  unfold runMain at hw
  by_cases h0 : ((extractIsbnsAndPubdateFromTrcText trcText labels).isbns.take
      TAKE_ISBNS).isEmpty
  · rw [if_pos h0] at hw
    cases prior with
    | none =>
      simp only [RunOutcome.write.injEq] at hw
      simp [← hw]
    | some _ => cases hw
  · rw [if_neg h0] at hw
    by_cases h2 : (itemsTodayOf probeOk trcText labels openbd).isEmpty
    · rw [if_pos h2] at hw
      cases hw
    · rw [if_neg h2] at hw
      simp only [RunOutcome.write.injEq] at hw
      rw [← hw]
      exact h1 _ _

/-- Witness for C2 at a concrete run that writes one record. -/
theorem merge_capacity_witness : ([sampleItem] : List Item).length ≤ 8 :=
  merge_capacity.2 (fun _ => false) (some samplePrior) sampleText sampleLabels
    sampleBd [sampleItem] (by decide)

/-! ### Claim C7: merge idempotence -/

/-- Counterexample to C7 as stated: `[emptyAmazonItem]` is itself a merge
output (so it has at most 8 entries and unique identifiers), yet merging
it into itself rewrites the falsy `amazon` field and returns a different
collection. -/
theorem merge_idem_cex :
    mergeRocketPencil [] [emptyAmazonItem] 8 = [emptyAmazonItem] ∧
    mergeRocketPencil [emptyAmazonItem] [emptyAmazonItem] 8 ≠ [emptyAmazonItem] := by
  constructor <;> decide

/-- C7 (amended).  Merge idempotence holds for collections of at most 8
records whose normalized identifiers are nonempty and pairwise distinct
and whose `amazon` fields are nonempty (true of every record `pick`
builds): `mergeRocketPencil(m, m, 8) = m`. -/
theorem merge_idem (m : List Item)
    (hlen : m.length ≤ 8)
    (hnodup : (m.map itemKey).Nodup)
    (hne : ∀ x ∈ m, itemKey x ≠ "")
    (hamz : ∀ x ∈ m, x.amazon ≠ "") :
    mergeRocketPencil m m 8 = m := by
  rw [mergeRocketPencil_eq]
  have hpatch : m.map (patchItem m) = m := by
    have hid : ∀ x ∈ m, patchItem m x = x :=
      fun x hx => patchItem_self hnodup hx (hamz x hx)
    calc m.map (patchItem m) = m.map id := List.map_congr_left hid
      _ = m := List.map_id m
  rw [hpatch]
  obtain ⟨seen', heq, hmem, _⟩ := dedupKeys_append m m [] hnodup (by simp)
  rw [heq, dedupKeys_sub_nil m seen' (fun x hx => Or.inr (hmem x hx (hne x hx))),
    List.append_nil, List.filter_eq_self.mpr (fun x hx => by simpa using hne x hx)]
  exact List.take_of_length_le hlen

/-- Witness for C7 (amended) at a concrete one-record collection. -/
theorem merge_idem_witness :
    mergeRocketPencil [sampleItem] [sampleItem] 8 = [sampleItem] :=
  merge_idem [sampleItem] (by decide) (by decide) (by decide) (by decide)

/-! ### Claim C3: gap-healing -/

/-- Counterexample to C3 as stated: the prior list contains an entry
(`gapOldGood`) with the same normalized identifier and a present cover,
the today-entry's cover is absent, yet the merged record's cover is still
absent — the patch map is built last-wins, so `gapOldBad` shadows
`gapOldGood`. -/
theorem merge_gap_healing_cex :
    gapNew.cover = none ∧
    gapOldGood ∈ [gapOldGood, gapOldBad] ∧
    itemKey gapOldGood = itemKey gapNew ∧
    gapOldGood.cover = some "x" ∧
    mergeRocketPencil [gapNew] [gapOldGood, gapOldBad] 8 = [gapNew] := by
  refine ⟨rfl, by simp, by decide, rfl, by decide⟩

/-- C3 (amended).  Gap-healing from the *last* prior entry per
identifier: for a today-entry with a nonempty normalized identifier,
unique among at most 8 today-entries, the merged collection contains a
record with its identifier whose cover (resp. pubdate) is the entry's own
value when present, and otherwise the cover (resp. pubdate) of the last
prior entry with that identifier (absent if there is none). -/
theorem merge_gap_healing (newItems oldItems : List Item) (it : Item)
    (hmem : it ∈ newItems)
    (hnodup : (newItems.map itemKey).Nodup)
    (hk : itemKey it ≠ "")
    (hlen : newItems.length ≤ 8) :
    ∃ m ∈ mergeRocketPencil newItems oldItems 8,
      itemKey m = itemKey it ∧
      (∀ c, it.cover = some c → m.cover = some c) ∧
      (it.cover = none → m.cover = (mapGet oldItems (itemKey it)).bind Item.cover) ∧
      (∀ p, it.pubdate = some p → m.pubdate = some p) ∧
      (it.pubdate = none →
        m.pubdate = (mapGet oldItems (itemKey it)).bind Item.pubdate) := by
  refine ⟨patchItem oldItems it, ?_, itemKey_patchItem oldItems it, ?_, ?_, ?_, ?_⟩
  · rw [mergeRocketPencil_eq]
    have hnodup' : ((newItems.map (patchItem oldItems)).map itemKey).Nodup := by
      rw [List.map_map]
      have : (itemKey ∘ patchItem oldItems) = itemKey := by
        funext x
        exact itemKey_patchItem oldItems x
      rw [this]
      exact hnodup
    obtain ⟨seen', heq, _, _⟩ :=
      dedupKeys_append (newItems.map (patchItem oldItems)) oldItems [] hnodup' (by simp)
    rw [heq, List.take_append_eq_append_take,
      List.take_of_length_le (le_trans (List.length_filter_le _ _) (by simpa using hlen))]
    apply List.mem_append_left
    apply List.mem_filter.mpr
    refine ⟨List.mem_map_of_mem _ hmem, ?_⟩
    simpa [itemKey_patchItem] using hk
  all_goals (
    simp only [patchItem]
    cases hg : mapGet oldItems (itemKey it))
  · intro c hc
    simp [hc]
  · intro c hc
    simp [hc]
  · intro hc
    simp [hc]
  · intro hc
    simp [hc]
  · intro p hp
    simp [hp]
  · intro p hp
    simp [hp]
  · intro hp
    simp [hp]
  · intro hp
    simp [hp]

/-- Witness for C3 (amended): a cover-less today-record healed from a
(unique) prior record. -/
theorem merge_gap_healing_witness :
    ∃ m ∈ mergeRocketPencil [gapNew] [gapOldGood] 8,
      itemKey m = itemKey gapNew ∧
      (∀ c, gapNew.cover = some c → m.cover = some c) ∧
      (gapNew.cover = none →
        m.cover = (mapGet [gapOldGood] (itemKey gapNew)).bind Item.cover) ∧
      (∀ p, gapNew.pubdate = some p → m.pubdate = some p) ∧
      (gapNew.pubdate = none →
        m.pubdate = (mapGet [gapOldGood] (itemKey gapNew)).bind Item.pubdate) :=
  merge_gap_healing [gapNew] [gapOldGood] gapNew (by decide) (by decide) (by decide)
    (by decide)

/-! ### Claim C1: non-regression no-op -/

theorem pick_isbn {e : Option BdEntry} {fb : String} {pd : Option String} {it : Item}
    (h : pick e fb pd = some it) : it.isbn ≠ "" ∧ normIsbn it.isbn = it.isbn := by
  unfold pick at h
  cases e with
  | none => cases h
  | some e' =>
    simp only at h
    split at h <;>
      (split at h
       · cases h
       · next hguard =>
         injection h with h
         subst h
         refine ⟨?_, normIsbn_idem _⟩
         intro hempty
         apply hguard
         simp at hempty
         simp [hempty])

theorem buildItemsToday_isbn {isbns : List String} {pdMap : List (String × String)}
    {openbd : List (Option BdEntry)} {it : Item}
    (h : it ∈ buildItemsToday isbns pdMap openbd) :
    it.isbn ≠ "" ∧ normIsbn it.isbn = it.isbn := by
  unfold buildItemsToday at h
  obtain ⟨p, _, hpick⟩ := List.mem_filterMap.mp h
  exact pick_isbn hpick

theorem fillCover_isbn (probeOk : String → Bool) (it : Item) :
    (fillCover probeOk it).isbn = it.isbn := by
  simp only [fillCover]
  split_ifs <;> rfl

theorem itemsTodayOf_isbn {probeOk : String → Bool} {trcText : String}
    {labels : List String} {openbd : List (Option BdEntry)} {it : Item}
    (h : it ∈ itemsTodayOf probeOk trcText labels openbd) :
    it.isbn ≠ "" ∧ normIsbn it.isbn = it.isbn := by
  unfold itemsTodayOf fillMissingCovers at h
  obtain ⟨y, hy, rfl⟩ := List.mem_map.mp h
  have hy' := List.take_subset 8 _ hy
  have hb := buildItemsToday_isbn hy'
  rw [fillCover_isbn]
  exact hb

theorem merge_ne_nil {newItems oldItems : List Item} (hne : newItems ≠ [])
    (hkey : ∀ x ∈ newItems, itemKey x ≠ "") :
    mergeRocketPencil newItems oldItems 8 ≠ [] := by
  rw [mergeRocketPencil_eq]
  cases newItems with
  | nil => exact absurd rfl hne
  | cons t ts =>
    have hk : skipKey [] (itemKey (patchItem oldItems t)) = false := by
      rw [skipKey_eq_false]
      exact ⟨by rw [itemKey_patchItem]; exact hkey t (by simp), by simp⟩
    have hd : dedupKeys ((t :: ts).map (patchItem oldItems) ++ oldItems) [] =
        patchItem oldItems t ::
          dedupKeys (ts.map (patchItem oldItems) ++ oldItems)
            (itemKey (patchItem oldItems t) :: []) := by
      rw [List.map_cons, List.cons_append, dedupKeys]
      simp [hk]
    rw [hd]
    simp

/-- C1.  Non-regression no-op: when a prior `books.json` exists and the
run's extraction yields no identifiers, or no records survive enrichment,
`main` returns without writing, leaving the persisted document unchanged;
and a run writes an empty `items` collection only when no prior document
existed. -/
theorem run_non_regression :
    (∀ (probeOk : String → Bool) (p : Json) (trcText : String) (labels : List String)
        (openbd : List (Option BdEntry)) (now src : String),
      (extractIsbnsAndPubdateFromTrcText trcText labels).isbns = [] ∨
          itemsTodayOf probeOk trcText labels openbd = [] →
        runMain probeOk (some p) trcText labels openbd = .noop ∧
          postState now src (some p)
            (runMain probeOk (some p) trcText labels openbd) = some p) ∧
    (∀ (probeOk : String → Bool) (prior : Option Json) (trcText : String)
        (labels : List String) (openbd : List (Option BdEntry)),
      runMain probeOk prior trcText labels openbd = .write [] → prior = none) := by
  constructor
  · intro probeOk p trcText labels openbd now src h
    have hnoop : runMain probeOk (some p) trcText labels openbd = .noop := by
      unfold runMain
      rcases h with h | h
      · rw [if_pos (by simp [h])]
      · by_cases h0 : ((extractIsbnsAndPubdateFromTrcText trcText labels).isbns.take
            TAKE_ISBNS).isEmpty
        · rw [if_pos h0]
        · rw [if_neg h0, if_pos (by simp [h])]
    exact ⟨hnoop, by rw [hnoop]; rfl⟩
  · intro probeOk prior trcText labels openbd hw
    unfold runMain at hw
    by_cases h0 : ((extractIsbnsAndPubdateFromTrcText trcText labels).isbns.take
        TAKE_ISBNS).isEmpty
    · rw [if_pos h0] at hw
      cases prior with
      | none => rfl
      | some _ => cases hw
    · rw [if_neg h0] at hw
      by_cases h2 : (itemsTodayOf probeOk trcText labels openbd).isEmpty
      · rw [if_pos h2] at hw
        cases hw
      · rw [if_neg h2] at hw
        exfalso
        simp only [RunOutcome.write.injEq] at hw
        refine merge_ne_nil ?_ ?_ hw
        · intro hcontr
          rw [hcontr] at h2
          exact h2 rfl
        · intro x hx
          have hp := itemsTodayOf_isbn hx
          unfold itemKey
          rw [hp.2]
          exact hp.1

/-- Witness for C1 at a run whose extraction is empty over an existing
document. -/
theorem run_non_regression_witness :
    runMain (fun _ => false) (some samplePrior) "" [] [] = .noop ∧
      postState "2026-01-10" "src" (some samplePrior)
        (runMain (fun _ => false) (some samplePrior) "" [] []) = some samplePrior :=
  run_non_regression.1 (fun _ => false) samplePrior "" [] [] "2026-01-10" "src"
    (Or.inl rfl)

/-! ### Claim C10: prior-state loading filters silently -/

/-- C10.  `loadExistingItems` returns `[]` for a missing/unreadable/
unparsable file, and every item it returns from a parsed document has a
normalized identifier matching `^97[89]\d{10}$` and a nonempty title. -/
theorem loadExistingItems_filters :
    loadExistingItems none = [] ∧
    ∀ (j : Json) (it : Item), it ∈ loadExistingItems (some j) →
      isbn13Spec it.isbn = true ∧ it.title ≠ "" := by
  refine ⟨rfl, ?_⟩
  intro j it h
  unfold loadExistingItems at h
  have hp := List.of_mem_filter h
  simp only [Bool.and_eq_true, decide_eq_true_eq] at hp
  exact hp

/-- Witness for C10: the surviving record of `dirtyDoc` is well-formed
(and it is the only survivor). -/
theorem loadExistingItems_filters_witness :
    isbn13Spec (Item.mk "9784001234567" "T" none none
        (amazonUrlFromIsbn "9784001234567")).isbn = true ∧
      (Item.mk "9784001234567" "T" none none
        (amazonUrlFromIsbn "9784001234567")).title ≠ "" :=
  loadExistingItems_filters.2 dirtyDoc _ (by decide)

/-! ### Claim C8: identifier validity invariant -/

theorem findIsbn13_spec : ∀ {cs w}, findIsbn13 cs = some w →
    isbn13Spec (String.mk w) = true := by
  intro cs
  induction cs with
  | nil => intro w h; cases h
  | cons c rest ih =>
    intro w h
    have he : findIsbn13 (c :: rest) =
        if isbn13Spec (String.mk ((c :: rest).take 13)) = true
        then some ((c :: rest).take 13) else findIsbn13 rest := rfl
    rw [he] at h
    by_cases hs : isbn13Spec (String.mk ((c :: rest).take 13)) = true
    · rw [if_pos hs] at h
      injection h with h
      subst h
      exact hs
    · rw [if_neg hs] at h
      exact ih h

theorem extractIsbnFromTextLine_spec {line : String}
    (h : extractIsbnFromTextLine line ≠ "") :
    isbn13Spec (extractIsbnFromTextLine line) = true := by
  cases hf : findIsbn13 (normStr line).toList with
  | none =>
    exfalso
    apply h
    unfold extractIsbnFromTextLine
    rw [hf]
  | some w =>
    have he : extractIsbnFromTextLine line = String.mk w := by
      unfold extractIsbnFromTextLine
      rw [hf]
    rw [he]
    exact findIsbn13_spec hf

theorem rowIsbn_spec {isbnCol : Option Nat} {r : List String} {joined : String}
    (h : rowIsbn isbnCol r joined ≠ "") :
    isbn13Spec (rowIsbn isbnCol r joined) = true := by
  cases isbnCol with
  | none =>
    have he : rowIsbn none r joined = extractIsbnFromTextLine joined := rfl
    rw [he] at h ⊢
    exact extractIsbnFromTextLine_spec h
  | some c =>
    have he : rowIsbn (some c) r joined =
        if (if isbn13Spec (normIsbn (r.getD c "")) = true
            then normIsbn (r.getD c "") else "") = ""
        then extractIsbnFromTextLine joined
        else if isbn13Spec (normIsbn (r.getD c "")) = true
            then normIsbn (r.getD c "") else "" := rfl
    by_cases hv : isbn13Spec (normIsbn (r.getD c "")) = true
    · rw [he, if_pos hv, if_neg (isbn13Spec_ne_empty hv)]
      exact hv
    · rw [he, if_neg hv, if_pos rfl] at h ⊢
      exact extractIsbnFromTextLine_spec h

theorem extractLoop_spec (labels : List String) (isbnCol pubCol : Option Nat) :
    ∀ (rows : List (List String)) (isbns : List String)
      (pdMap : List (String × String)),
      (∀ s ∈ isbns, isbn13Spec s = true) →
      ∀ s ∈ (extractLoop labels isbnCol pubCol rows isbns pdMap).1,
        isbn13Spec s = true := by
  intro rows
  induction rows with
  | nil =>
    intro isbns pdMap hinv s hs
    exact hinv s (List.mem_reverse.mp hs)
  | cons r rest ih =>
    intro isbns pdMap hinv s hs
    unfold extractLoop at hs
    split at hs
    · exact ih isbns pdMap hinv s hs
    · split at hs
      · exact ih isbns pdMap hinv s hs
      · next hne =>
        refine ih _ _ ?_ s hs
        intro x hx
        rcases List.mem_cons.mp hx with rfl | hx'
        · exact rowIsbn_spec hne
        · exact hinv x hx'

theorem mem_uniqAux : ∀ {l seen : List String} {s : String}, s ∈ uniqAux l seen → s ∈ l := by
  intro l
  induction l with
  | nil => intro seen s h; cases h
  | cons x xs ih =>
    intro seen s h
    unfold uniqAux at h
    split at h
    · exact List.mem_cons_of_mem x (ih h)
    · rcases List.mem_cons.mp h with rfl | h'
      · exact List.mem_cons_self ..
      · exact List.mem_cons_of_mem x (ih h')

/-- C8.  Every identifier the record extractor returns matches
`^97[89]\d{10}$` — whether read from the inferred column or scraped from
the row's joined text, malformed candidates never reach the output. -/
theorem extract_isbns_valid (text : String) (labels : List String) :
    ∀ s ∈ (extractIsbnsAndPubdateFromTrcText text labels).isbns,
      isbn13Spec s = true := by
  intro s hs
  by_cases hl : (splitLines text).isEmpty
  · have he : extractIsbnsAndPubdateFromTrcText text labels = ⟨[], [], none⟩ := by
      simp only [extractIsbnsAndPubdateFromTrcText]
      rw [if_pos hl]
    rw [he] at hs
    cases hs
  · have he : (extractIsbnsAndPubdateFromTrcText text labels).isbns =
        uniq (extractLoop labels
          (inferIsbnColumn (parseTable (splitLines text)).header
            (parseTable (splitLines text)).rows)
          (inferPubdateColumn (parseTable (splitLines text)).header
            (parseTable (splitLines text)).rows)
          (parseTable (splitLines text)).rows [] []).1 := by
      simp only [extractIsbnsAndPubdateFromTrcText]
      rw [if_neg hl]
    rw [he] at hs
    exact extractLoop_spec labels _ _ _ [] [] (by intro x hx; cases hx) s
      (mem_uniqAux hs)

/-- Witness for C8: the sample extraction returns exactly the valid
identifier of its data row. -/
theorem extract_isbns_valid_witness :
    isbn13Spec "9784001234567" = true :=
  extract_isbns_valid sampleText sampleLabels "9784001234567" (by decide)

/-! ### Claim C4: conditional header detection -/

/-- Counterexample to C4 as stated: a first line that does not resemble a
header at all (it is a data row) is still excluded from the data rows —
`parseTable` unconditionally takes the first line as the header. -/
theorem parseTable_header_cex :
    specLooksLikeHeader "9784001234567\tFoo" = false ∧
    (parseTable ["9784001234567\tFoo", "9784001234568\tBar"]).rows =
      [["9784001234568", "Bar"]] ∧
    (parseTable ["9784001234567\tFoo", "9784001234568\tBar"]).header =
      ["9784001234567", "Foo"] := by
  refine ⟨by decide, by decide, by decide⟩

/-- C4 (amended).  Header stripping is unconditional: whatever the first
line looks like, `parseTable` returns it (padded) as the header and the
remaining lines as the data rows, so the data-row count is always one
less than the line count. -/
theorem parseTable_always_header (lines : List String) :
    (parseTable lines).rows.length = lines.length - 1 := by
  cases lines with
  | nil => rfl
  | cons l0 ls =>
    simp only [parseTable]
    rw [List.length_tail]
    simp

/-! ### Claim C6: delimiter detection -/

/-- Counterexample to C6 as stated: the first line contains neither a tab
nor a comma, yet nothing signals "delimiter undetectable" — the parser
picks tab and the run still extracts an identifier through the free-text
fallback instead of degrading to an empty extraction. -/
theorem detect_delimiter_cex :
    countCh '\t' "X" = 0 ∧ countCh ',' "X" = 0 ∧
    detectDelimiter "X" = '\t' ∧
    (extractIsbnsAndPubdateFromTrcText "X\nSTAR 9784001234567" ["STAR"]).isbns =
      ["9784001234567"] := by
  refine ⟨rfl, rfl, rfl, by decide⟩

/-- C6 (amended).  `detectDelimiter` is total: it returns tab whenever
tabs occur at least as often as commas (in particular on a line with
neither character) and comma otherwise; there is no "undetectable"
outcome. -/
theorem detectDelimiter_total :
    (∀ line, detectDelimiter line = '\t' ∨ detectDelimiter line = ',') ∧
    (∀ line, countCh '\t' line = 0 → countCh ',' line = 0 →
      detectDelimiter line = '\t') := by
  constructor
  · intro line
    unfold detectDelimiter
    split
    · exact Or.inl rfl
    · exact Or.inr rfl
  · intro line h1 h2
    unfold detectDelimiter
    rw [if_pos]
    omega

/-- Witness for C6 (amended) on a delimiter-free line. -/
theorem detectDelimiter_total_witness : detectDelimiter "X" = '\t' :=
  detectDelimiter_total.2 "X" rfl rfl

/-! ### Claim C9: publication-date normalization -/

/-- Counterexample to C9 as stated: a short non-date string is returned
verbatim, which is neither of the two normalized shapes nor `null`. -/
theorem formatPubdateMin_cex :
    formatPubdateMin "hello" = some "hello" ∧
    isYmdShape "hello" = false ∧ isYmShape "hello" = false := by
  refine ⟨by decide, by decide, by decide⟩

theorem mkYmd_shape {a b c d e f g h : Char}
    (ha : a.isDigit = true) (hb : b.isDigit = true) (hc : c.isDigit = true)
    (hd : d.isDigit = true) (he : e.isDigit = true) (hf : f.isDigit = true)
    (hg : g.isDigit = true) (hh : h.isDigit = true) :
    isYmdShape (String.mk [a, b, c, d, '/', e, f, '/', g, h]) = true := by
  show (a.isDigit && b.isDigit && c.isDigit && d.isDigit && ('/' == '/') &&
      e.isDigit && f.isDigit && ('/' == '/') && g.isDigit && h.isDigit) = true
  simp [ha, hb, hc, hd, he, hf, hg, hh]

theorem mkYm_shape {a b c d e f : Char}
    (ha : a.isDigit = true) (hb : b.isDigit = true) (hc : c.isDigit = true)
    (hd : d.isDigit = true) (he : e.isDigit = true) (hf : f.isDigit = true) :
    isYmShape (String.mk [a, b, c, d, '/', e, f]) = true := by
  show (a.isDigit && b.isDigit && c.isDigit && d.isDigit && ('/' == '/') &&
      e.isDigit && f.isDigit) = true
  simp [ha, hb, hc, hd, he, hf]

theorem tryYyyymmdd_shape : ∀ {cs : List Char} {s : String},
    tryYyyymmdd cs = some s → isYmdShape s = true := by
  intro cs s h
  unfold tryYyyymmdd at h
  split at h
  · split at h
    · next hd =>
      injection h with h
      subst h
      simp only [Bool.and_eq_true] at hd
      exact mkYmd_shape hd.1.1.1.1.1.1.1 hd.1.1.1.1.1.1.2 hd.1.1.1.1.1.2
        hd.1.1.1.1.2 hd.1.1.1.2 hd.1.1.2 hd.1.2 hd.2
    · cases h
  · cases h

theorem dayParse_digits : ∀ {l d : List Char}, dayParse l = some d → TwoDigitish d := by
  intro l d h
  match l with
  | [] => cases h
  | [d1] =>
    rw [show dayParse [d1] = if d1.isDigit = true then some [d1] else none from rfl] at h
    by_cases h1 : d1.isDigit = true
    · rw [if_pos h1] at h
      injection h with h
      subst h
      exact Or.inl ⟨d1, rfl, h1⟩
    · rw [if_neg h1] at h
      cases h
  | d1 :: d2 :: rest =>
    rw [show dayParse (d1 :: d2 :: rest) =
        if d1.isDigit = true then some (if d2.isDigit = true then [d1, d2] else [d1])
        else none from rfl] at h
    by_cases h1 : d1.isDigit = true
    · rw [if_pos h1] at h
      injection h with h
      subst h
      by_cases h2 : d2.isDigit = true
      · rw [if_pos h2]
        exact Or.inr ⟨d1, d2, rfl, h1, h2⟩
      · rw [if_neg h2]
        exact Or.inl ⟨d1, rfl, h1⟩
    · rw [if_neg h1] at h
      cases h

theorem pad2_digits {m : List Char} (hm : TwoDigitish m) :
    ∃ a b, pad2 m = [a, b] ∧ a.isDigit = true ∧ b.isDigit = true := by
  rcases hm with ⟨a, rfl, ha⟩ | ⟨a, b, rfl, ha, hb⟩
  · exact ⟨'0', a, rfl, by decide, ha⟩
  · exact ⟨a, b, rfl, ha, hb⟩

theorem ymdTwo_parts {y1 y2 y3 y4 : Char} : ∀ {rest y m d : List Char},
    ymdTwo y1 y2 y3 y4 rest = some (y, m, d) →
      y = [y1, y2, y3, y4] ∧ TwoDigitish m ∧ TwoDigitish d := by
  intro rest y m d h
  unfold ymdTwo at h
  split at h
  · next m1 m2 s2 rest2 =>
    split at h
    · next hm =>
      simp only [Bool.and_eq_true] at hm
      obtain ⟨dd, hdd, hpair⟩ := Option.map_eq_some'.mp h
      injection hpair with hy hmd
      injection hmd with hm' hd'
      subst hy hm' hd'
      exact ⟨rfl, Or.inr ⟨m1, m2, rfl, hm.1.1, hm.1.2⟩, dayParse_digits hdd⟩
    · cases h
  · cases h

theorem ymdOne_parts {y1 y2 y3 y4 : Char} : ∀ {rest y m d : List Char},
    ymdOne y1 y2 y3 y4 rest = some (y, m, d) →
      y = [y1, y2, y3, y4] ∧ TwoDigitish m ∧ TwoDigitish d := by
  intro rest y m d h
  unfold ymdOne at h
  split at h
  · next m1 s2 rest2 =>
    split at h
    · next hm =>
      simp only [Bool.and_eq_true] at hm
      obtain ⟨dd, hdd, hpair⟩ := Option.map_eq_some'.mp h
      injection hpair with hy hmd
      injection hmd with hm' hd'
      subst hy hm' hd'
      exact ⟨rfl, Or.inl ⟨m1, rfl, hm.1⟩, dayParse_digits hdd⟩
    · cases h
  · cases h

/-- The pieces a successful `Y‐M‐D` parse returns: four year digits and
1–2-digit month and day. -/
theorem ymdParse_parts : ∀ {cs : List Char} {y m d : List Char},
    ymdParse cs = some (y, m, d) →
      (∃ a b c e, y = [a, b, c, e] ∧ a.isDigit = true ∧ b.isDigit = true ∧
        c.isDigit = true ∧ e.isDigit = true) ∧
      TwoDigitish m ∧ TwoDigitish d := by
  intro cs y m d h
  unfold ymdParse at h
  split at h
  · next y1 y2 y3 y4 s rest =>
    split at h
    · next hg =>
      simp only [Bool.and_eq_true] at hg
      cases h2 : ymdTwo y1 y2 y3 y4 rest with
      | none =>
        simp only [h2] at h
        obtain ⟨hy, hm, hd⟩ := ymdOne_parts h
        exact ⟨⟨y1, y2, y3, y4, hy, hg.1.1.1.1, hg.1.1.1.2, hg.1.1.2, hg.1.2⟩, hm, hd⟩
      | some r =>
        simp only [h2] at h
        injection h with h
        subst h
        obtain ⟨hy, hm, hd⟩ := ymdTwo_parts h2
        exact ⟨⟨y1, y2, y3, y4, hy, hg.1.1.1.1, hg.1.1.1.2, hg.1.1.2, hg.1.2⟩, hm, hd⟩
    · cases h
  · cases h

/-- The pieces a successful `Y‐M` parse returns. -/
theorem ymParse_parts : ∀ {cs : List Char} {y m : List Char},
    ymParse cs = some (y, m) →
      (∃ a b c e, y = [a, b, c, e] ∧ a.isDigit = true ∧ b.isDigit = true ∧
        c.isDigit = true ∧ e.isDigit = true) ∧ TwoDigitish m := by
  intro cs y m h
  unfold ymParse at h
  split at h
  · next y1 y2 y3 y4 s rest =>
    split at h
    · next hg =>
      simp only [Bool.and_eq_true] at hg
      split at h
      · cases h
      · next m1 =>
        split at h
        · next h1 =>
          injection h with h
          injection h with hy' hm'
          subst hy' hm'
          exact ⟨⟨y1, y2, y3, y4, rfl, hg.1.1.1.1, hg.1.1.1.2, hg.1.1.2, hg.1.2⟩,
            Or.inl ⟨m1, rfl, h1⟩⟩
        · cases h
      · next m1 m2 rest2 =>
        split at h
        · next h1 =>
          injection h with h
          injection h with hy' hm'
          subst hy'
          by_cases h2 : m2.isDigit = true
          · rw [if_pos h2] at hm'
            subst hm'
            exact ⟨⟨y1, y2, y3, y4, rfl, hg.1.1.1.1, hg.1.1.1.2, hg.1.1.2, hg.1.2⟩,
              Or.inr ⟨m1, m2, rfl, h1, h2⟩⟩
          · rw [if_neg h2] at hm'
            subst hm'
            exact ⟨⟨y1, y2, y3, y4, rfl, hg.1.1.1.1, hg.1.1.1.2, hg.1.1.2, hg.1.2⟩,
              Or.inl ⟨m1, rfl, h1⟩⟩
        · cases h
    · cases h
  · cases h

theorem pubdateCore_shapes (t : String) :
    pubdateCore t = none ∨
      ∃ s, pubdateCore t = some s ∧
        (isYmdShape s = true ∨ isYmShape s = true ∨ (s = t ∧ t.length ≤ 10)) := by
  by_cases h0 : t = ""
  · left
    simp [pubdateCore, h0]
  · cases h8 : tryYyyymmdd t.toList with
    | some s8 =>
      right
      refine ⟨s8, ?_, Or.inl (tryYyyymmdd_shape h8)⟩
      simp only [pubdateCore]
      rw [if_neg h0, h8]
    | none =>
      cases hymd : ymdParse t.toList with
      | some r =>
        obtain ⟨y, m, d⟩ := r
        right
        obtain ⟨⟨a, b, c, e, hy, ha, hb, hc, he⟩, hm, hd⟩ := ymdParse_parts hymd
        obtain ⟨m1, m2, hpm, hm1, hm2⟩ := pad2_digits hm
        obtain ⟨d1, d2, hpd, hd1, hd2⟩ := pad2_digits hd
        refine ⟨String.mk (y ++ '/' :: pad2 m ++ '/' :: pad2 d), ?_, Or.inl ?_⟩
        · simp only [pubdateCore]
          rw [if_neg h0, h8, hymd]
        · rw [hy, hpm, hpd]
          exact mkYmd_shape ha hb hc he hm1 hm2 hd1 hd2
      | none =>
        cases hym : ymParse t.toList with
        | some r =>
          obtain ⟨y, m⟩ := r
          right
          obtain ⟨⟨a, b, c, e, hy, ha, hb, hc, he⟩, hm⟩ := ymParse_parts hym
          obtain ⟨m1, m2, hpm, hm1, hm2⟩ := pad2_digits hm
          refine ⟨String.mk (y ++ '/' :: pad2 m), ?_, Or.inr (Or.inl ?_)⟩
          · simp only [pubdateCore]
            rw [if_neg h0, h8, hymd, hym]
          · rw [hy, hpm]
            exact mkYm_shape ha hb hc he hm1 hm2
        | none =>
          by_cases hlen : t.length ≤ 10
          · right
            refine ⟨t, ?_, Or.inr (Or.inr ⟨rfl, hlen⟩)⟩
            simp only [pubdateCore]
            rw [if_neg h0, h8, hymd, hym, if_pos hlen]
          · left
            simp only [pubdateCore]
            rw [if_neg h0, h8, hymd, hym, if_neg hlen]

/-- C9 (amended).  `formatPubdateMin` returns `null`, an exact
`YYYY/MM/DD`, an exact `YYYY/MM`, or — the fallback the claim omits — the
trimmed input string itself whenever no date pattern matched and the
trimmed input has at most 10 characters. -/
theorem formatPubdateMin_shapes (raw : String) :
    formatPubdateMin raw = none ∨
      ∃ s, formatPubdateMin raw = some s ∧
        (isYmdShape s = true ∨ isYmShape s = true ∨
          (s = String.mk (trimChars raw.toList) ∧ s.length ≤ 10)) := by
  by_cases h0 : raw = ""
  · left
    simp [formatPubdateMin, h0]
  · have he : formatPubdateMin raw = pubdateCore (String.mk (trimChars raw.toList)) := by
      simp [formatPubdateMin, h0]
    rw [he]
    rcases pubdateCore_shapes (String.mk (trimChars raw.toList)) with h | ⟨s, hs, hsh⟩
    · exact Or.inl h
    · refine Or.inr ⟨s, hs, ?_⟩
      rcases hsh with h | h | ⟨rfl, hl⟩
      · exact Or.inl h
      · exact Or.inr (Or.inl h)
      · exact Or.inr (Or.inr ⟨rfl, hl⟩)

/-! ### Claim C5: identifier-column statistical inference -/

/-- Counterexample to C5 as stated: two 13-digit reserved-prefix cells in
a single column score 2·3 = 6 ≥ 5 under the claimed scoring, which would
resolve column 0, but the code counts +1 per cell against a threshold of
3 and stays unresolved. -/
theorem infer_isbn_scoring_cex :
    inferIsbnColumn ["col"] [["9784001234567"], ["9789991234567"]] = none ∧
    specInferIsbnColumn ["col"] [["9784001234567"], ["9789991234567"]] = some 0 := by
  constructor <;> decide

theorem bestColAux_snd : ∀ (ps : List (Nat × Nat)) (best : Option Nat) (bc : Nat),
    (bestColAux ps best bc).2 = ps.foldl (fun a p => max a p.2) bc := by
  intro ps
  induction ps with
  | nil => intro best bc; rfl
  | cons p rest ih =>
    intro best bc
    obtain ⟨i, x⟩ := p
    show (if bc < x then bestColAux rest (some i) x else bestColAux rest best bc).2 = _
    by_cases h : bc < x
    · rw [if_pos h, ih]
      simp [Nat.max_eq_right (le_of_lt h)]
    · rw [if_neg h, ih]
      simp [Nat.max_eq_left (le_of_not_lt h)]

theorem foldl_max_le_init : ∀ (l : List (Nat × Nat)) (a : Nat),
    a ≤ l.foldl (fun a p => max a p.2) a := by
  intro l
  induction l with
  | nil => intro a; exact le_refl a
  | cons p rest ih =>
    intro a
    exact le_trans (Nat.le_max_left a p.2) (ih (max a p.2))

theorem foldl_max_mem : ∀ (l : List (Nat × Nat)) (a : Nat) (p : Nat × Nat),
    p ∈ l → p.2 ≤ l.foldl (fun a q => max a q.2) a := by
  intro l
  induction l with
  | nil => intro a p hp; cases hp
  | cons q rest ih =>
    intro a p hp
    rcases List.mem_cons.mp hp with rfl | hp'
    · exact le_trans (Nat.le_max_right a p.2) (foldl_max_le_init rest (max a p.2))
    · exact ih (max a q.2) p hp'

theorem bestColAux_some_stays : ∀ (ps : List (Nat × Nat)) (i : Nat) (bc : Nat),
    (bestColAux ps (some i) bc).1 ≠ none := by
  intro ps
  induction ps with
  | nil => intro i bc h; cases h
  | cons p rest ih =>
    intro i bc
    obtain ⟨j, x⟩ := p
    show (if bc < x then bestColAux rest (some j) x else bestColAux rest (some i) bc).1 ≠ none
    by_cases h : bc < x
    · rw [if_pos h]; exact ih j x
    · rw [if_neg h]; exact ih i bc

theorem bestColAux_none : ∀ (ps : List (Nat × Nat)) (bc : Nat),
    (bestColAux ps none bc).1 = none → (bestColAux ps none bc).2 = bc := by
  intro ps
  induction ps with
  | nil => intro bc _; rfl
  | cons p rest ih =>
    intro bc h
    obtain ⟨i, x⟩ := p
    have he : bestColAux ((i, x) :: rest) none bc =
        if bc < x then bestColAux rest (some i) x else bestColAux rest none bc := rfl
    rw [he] at h ⊢
    by_cases hlt : bc < x
    · rw [if_pos hlt] at h
      exact absurd h (bestColAux_some_stays rest i x)
    · rw [if_neg hlt] at h ⊢
      exact ih bc h

theorem bestColAux_mem : ∀ (ps : List (Nat × Nat)) (best : Option Nat) (bc j : Nat),
    (bestColAux ps best bc).1 = some j →
      (best = some j ∧ (bestColAux ps best bc).2 = bc) ∨
        (j, (bestColAux ps best bc).2) ∈ ps := by
  intro ps
  induction ps with
  | nil => intro best bc j h; exact Or.inl ⟨h, rfl⟩
  | cons p rest ih =>
    intro best bc j h
    obtain ⟨i, x⟩ := p
    have he : bestColAux ((i, x) :: rest) best bc =
        if bc < x then bestColAux rest (some i) x else bestColAux rest best bc := rfl
    rw [he] at h ⊢
    by_cases hlt : bc < x
    · rw [if_pos hlt] at h ⊢
      rcases ih (some i) x j h with ⟨hb, hs⟩ | hmem
      · injection hb with hb
        subst hb
        exact Or.inr (by rw [hs]; exact List.mem_cons_self ..)
      · exact Or.inr (List.mem_cons_of_mem _ hmem)
    · rw [if_neg hlt] at h ⊢
      rcases ih best bc j h with ⟨hb, hs⟩ | hmem
      · exact Or.inl ⟨hb, hs⟩
      · exact Or.inr (List.mem_cons_of_mem _ hmem)

/-- C5 (amended).  When no header cell contains `isbn`, the inferencer
scans at most the first 200 data rows, awards +1 (not +3/+1) per cell
matching the 13-digit reserved-prefix pattern, picks the column with the
highest count, and returns unresolved unless that count is at least 3
(not 5); a resolved column is a genuine argmax with count ≥ 3, and on an
unresolved outcome every column's count is below 3. -/
theorem inferIsbnColumn_spec (header : List String) (rows : List (List String))
    (hno : ∀ cell ∈ header, strContains (lowerStr (normStr cell)) "isbn" = false) :
    (∀ c, inferIsbnColumn header rows = some c →
      c < header.length ∧ 3 ≤ isbnColCount rows c ∧
        ∀ c' < header.length, isbnColCount rows c' ≤ isbnColCount rows c) ∧
    (inferIsbnColumn header rows = none →
      ∀ c < header.length, isbnColCount rows c < 3) := by
  have hfind : (header.map normStr).findIdx?
      (fun x => strContains (lowerStr x) "isbn") = none := by
    rw [List.findIdx?_eq_none_iff]
    intro x hx
    obtain ⟨cell, hcell, rfl⟩ := List.mem_map.mp hx
    exact hno cell hcell
  have he : inferIsbnColumn header rows =
      if (rows.take 200).isEmpty = true then none
      else
        if (bestColAux ((List.range header.length).map
            (fun c => (c, isbnColCount rows c))) none 0).2 < 3 then none
        else (bestColAux ((List.range header.length).map
            (fun c => (c, isbnColCount rows c))) none 0).1 := by
    simp only [inferIsbnColumn]
    rw [hfind]
  by_cases hs : (rows.take 200).isEmpty = true
  · rw [he, if_pos hs]
    have hcount : ∀ c, isbnColCount rows c = 0 := by
      intro c
      unfold isbnColCount
      rw [List.isEmpty_iff.mp hs]
      rfl
    constructor
    · intro c hc
      cases hc
    · intro _ c _
      rw [hcount c]
      omega
  · rw [he, if_neg hs]
    set ps := (List.range header.length).map (fun c => (c, isbnColCount rows c)) with hps
    have hmax : ∀ c' < header.length,
        isbnColCount rows c' ≤ (bestColAux ps none 0).2 := by
      intro c' hc'
      rw [bestColAux_snd]
      exact foldl_max_mem ps 0 (c', isbnColCount rows c')
        (List.mem_map.mpr ⟨c', List.mem_range.mpr hc', rfl⟩)
    by_cases hlt : (bestColAux ps none 0).2 < 3
    · rw [if_pos hlt]
      constructor
      · intro c hc
        cases hc
      · intro _ c hc
        exact lt_of_le_of_lt (hmax c hc) hlt
    · rw [if_neg hlt]
      constructor
      · intro c hc
        rcases bestColAux_mem ps none 0 c hc with ⟨hb, _⟩ | hmem
        · cases hb
        · obtain ⟨c0, hc0, hpair⟩ := List.mem_map.mp hmem
          injection hpair with h1 h2
          subst h1
          refine ⟨List.mem_range.mp hc0, ?_, ?_⟩
          · rw [h2]; omega
          · intro c' hc'
            rw [h2]
            exact hmax c' hc'
      · intro hcnone
        exfalso
        have := bestColAux_none ps 0 hcnone
        omega

/-- Witness for C5 (amended): on an isbn-free header with too few
matching cells the inferencer stays unresolved, and indeed every column
count is below 3. -/
theorem inferIsbnColumn_spec_witness :
    isbnColCount [["9784001234567"], ["9789991234567"]] 0 < 3 :=
  (inferIsbnColumn_spec ["col"] [["9784001234567"], ["9789991234567"]]
    (by decide)).2 (by decide) 0 (by decide)

end UpdateBooks
